import Mathlib

/-!
Verification of the notebook persistence / security core.

The development shallowly embeds the client-side notebook code:

* `NB.utf8Encode` / `NB.utf8Decode`, `NB.toBase64` / `NB.fromBase64` and the
  URL-safe character swaps model the byte-level text encodings used by
  `compress` / `decompress` (src/src/scripts/utils.js, lines 49-72) and by
  `CryptoUtils` (crypto.js).  The browser `CompressionStream('deflate-raw')`
  codec and the WebCrypto AES-GCM / PBKDF2 primitives are platform built-ins,
  not repository code; they enter as function parameters constrained by
  round-trip hypotheses.
* `NB.Model` is a symbolic state model of `NotebookManager`
  (src/src/scripts/utils.js, lines 181-1065): notes, the persisted
  collection, the in-memory session-key cache, and the editing surface
  (`window.article`) as an explicit string plus editable flag.
-/

namespace NB

/-! ## UTF-8 (TextEncoder / TextDecoder model) -/

/-- Bytes of one scalar value, as produced by `TextEncoder`. -/
def utf8EncodeChar (c : Char) : List Nat :=
  if c.toNat < 128 then [c.toNat]
  else if c.toNat < 2048 then [192 + c.toNat / 64, 128 + c.toNat % 64]
  else if c.toNat < 65536 then
    [224 + c.toNat / 4096, 128 + c.toNat / 64 % 64, 128 + c.toNat % 64]
  else
    [240 + c.toNat / 262144, 128 + c.toNat / 4096 % 64,
     128 + c.toNat / 64 % 64, 128 + c.toNat % 64]

/-- `TextEncoder.encode` over a character list. -/
def utf8EncodeList : List Char → List Nat
  | [] => []
  | c :: cs => utf8EncodeChar c ++ utf8EncodeList cs

/-- `TextEncoder.encode` on a string, as a byte (Nat) list. -/
def utf8Encode (s : String) : List Nat :=
  utf8EncodeList s.data

/-- `TextDecoder.decode` model.  On well-formed UTF-8 (the only inputs the
round-trip theorems use) it inverts `utf8EncodeList`. -/
def utf8Decode : List Nat → List Char
  | [] => []
  | b :: rest =>
    if b < 128 then Char.ofNat b :: utf8Decode rest
    else if b < 224 then
      Char.ofNat ((b - 192) * 64 + (rest.headD 0 - 128)) :: utf8Decode (rest.drop 1)
    else if b < 240 then
      Char.ofNat ((b - 224) * 4096 + (rest.headD 0 - 128) * 64 +
        ((rest.drop 1).headD 0 - 128)) :: utf8Decode (rest.drop 2)
    else
      Char.ofNat ((b - 240) * 262144 + (rest.headD 0 - 128) * 4096 +
        ((rest.drop 1).headD 0 - 128) * 64 + ((rest.drop 2).headD 0 - 128))
        :: utf8Decode (rest.drop 3)
termination_by l => l.length
decreasing_by
  all_goals simp only [List.length_cons, List.length_drop]
  all_goals omega

/-! ## Base64 (`Uint8Array.toBase64` / `Uint8Array.fromBase64` model)

Standard base64 with `=` padding, as produced by `btoa` and by the
`setupPolyfills` prototype methods (src/src/scripts/utils.js, lines 74-97). -/

/-- The standard base64 alphabet. -/
def b64Alphabet : List Char :=
  ("ABCDEFGHIJKLMNOPQRSTUVWXYZabcdefghijklmnopqrstuvwxyz0123456789+/").data

/-- Character for a 6-bit value. -/
def b64Char (n : Nat) : Char := b64Alphabet.getD n 'A'

/-- 6-bit value of an alphabet character. -/
def b64Val (c : Char) : Nat := b64Alphabet.indexOf c

/-- `Uint8Array.toBase64`: 3 bytes to 4 characters, `=`-padded. -/
def toBase64 : List Nat → List Char
  | [] => []
  | [a] => [b64Char (a / 4), b64Char (a % 4 * 16), '=', '=']
  | [a, b] => [b64Char (a / 4), b64Char (a % 4 * 16 + b / 16), b64Char (b % 16 * 4), '=']
  | a :: b :: c :: rest =>
    b64Char (a / 4) :: b64Char (a % 4 * 16 + b / 16) ::
      b64Char (b % 16 * 4 + c / 64) :: b64Char (c % 64) :: toBase64 rest

/-- `Uint8Array.fromBase64`: 4 characters back to up to 3 bytes. -/
def fromBase64 : List Char → List Nat
  | c1 :: c2 :: c3 :: c4 :: rest =>
    if c3 = '=' then [b64Val c1 * 4 + b64Val c2 / 16]
    else if c4 = '=' then
      [b64Val c1 * 4 + b64Val c2 / 16, b64Val c2 % 16 * 16 + b64Val c3 / 4]
    else
      (b64Val c1 * 4 + b64Val c2 / 16) :: (b64Val c2 % 16 * 16 + b64Val c3 / 4) ::
        (b64Val c3 % 4 * 64 + b64Val c4) :: fromBase64 rest
  | _ => []

/-! ## URL-safe replacement and the compression codec

`compress` / `decompress` (src/src/scripts/utils.js, lines 49-72):
UTF-8 encode, run the platform `deflate-raw` codec, base64, then replace
`+` by `-` and `/` by `_` (and back on the way in).  The deflate codec is a
browser built-in, so it is a function parameter constrained by a round-trip
hypothesis; everything else is concrete. -/

/-- The global replacement of `+` by `-` and of `/` by `_`, per character. -/
def swapEnc (c : Char) : Char :=
  if c = '+' then '-' else if c = '/' then '_' else c

/-- The global replacement of `-` by `+` and of `_` by `/`, per character. -/
def swapDec (c : Char) : Char :=
  if c = '-' then '+' else if c = '_' then '/' else c

/-- `compress(string)` with the platform deflate as a parameter. -/
def compress (deflate : List Nat → List Nat) (s : String) : String :=
  String.mk ((toBase64 (deflate (utf8Encode s))).map swapEnc)

/-- `decompress(b64)` with the platform inflate as a parameter. -/
def decompress (inflate : List Nat → List Nat) (t : String) : String :=
  String.mk (utf8Decode (inflate (fromBase64 (t.data.map swapDec))))

/-- Characters allowed in a URL fragment without percent-encoding, as the
spec's "restricted alphabet": base64url letters, digits, `-`, `_`, `=`. -/
def isUrlSafe (c : Char) : Bool :=
  c.isAlphanum || c = '-' || c = '_' || c = '='

/-! ## The WebCrypto model (`CryptoUtils`, crypto.js)

PBKDF2 and AES-GCM are platform primitives, so they are carried as the
fields of an `AesModel`; key derivation is deterministic in
(password, salt bytes) because `pbkdf2` is a function.  The base64url
encoding of salt, iv and ciphertext is modelled concretely. -/

/-- `new Uint8Array(x).toBase64().replace(...)`: bytes to base64url text. -/
def b64urlOfBytes (bs : List Nat) : String :=
  String.mk ((toBase64 bs).map swapEnc)

/-- `Uint8Array.fromBase64(x.replace(...))`: base64url text to bytes. -/
def bytesOfB64url (t : String) : List Nat :=
  fromBase64 (t.data.map swapDec)

/-- The platform cryptography: PBKDF2-SHA256 key derivation (100000
iterations) and AES-GCM, abstracted as functions. `aesDec` returns `none`
on authentication failure. -/
structure AesModel (K : Type) where
  pbkdf2 : String → List Nat → K
  aesEnc : K → List Nat → List Nat → List Nat
  aesDec : K → List Nat → List Nat → Option (List Nat)

namespace CryptoUtils

/-- `CryptoUtils.deriveKey(password, salt)` for a salt supplied in its
encoded-text form (the `typeof salt === 'string'` branch). -/
def deriveKey {K : Type} (M : AesModel K) (password saltB64 : String) : K :=
  M.pbkdf2 password (bytesOfB64url saltB64)

/-- The record returned by `encrypt` / `encryptWithKey`. -/
structure EncResult where
  encryptedData : String
  salt : String
  iv : String

/-- `CryptoUtils.encryptWithKey(text, key, salt, iv)` for raw byte salt and
iv (the branch taken by `encrypt`, which passes fresh random bytes). -/
def encryptWithKey {K : Type} (M : AesModel K) (text : String) (key : K)
    (salt iv : List Nat) : EncResult :=
  { encryptedData := b64urlOfBytes (M.aesEnc key iv (utf8Encode text)),
    salt := b64urlOfBytes salt,
    iv := b64urlOfBytes iv }

/-- `CryptoUtils.encrypt(text, password)`.  The fresh random `salt` (16
bytes) and `iv` (12 bytes) drawn from `getRandomValues` are parameters. -/
def encrypt {K : Type} (M : AesModel K) (text password : String)
    (salt iv : List Nat) : EncResult :=
  encryptWithKey M text (M.pbkdf2 password salt) salt iv

/-- `CryptoUtils.decryptWithKey`; `none` models the thrown
`Decryption failed` error. -/
def decryptWithKey {K : Type} (M : AesModel K) (encryptedB64 : String)
    (key : K) (ivB64 : String) : Option String :=
  (M.aesDec key (bytesOfB64url ivB64) (bytesOfB64url encryptedB64)).map
    (fun bs => String.mk (utf8Decode bs))

/-- `CryptoUtils.decrypt(encryptedB64, password, saltB64, ivB64)`. -/
def decrypt {K : Type} (M : AesModel K)
    (encryptedB64 password saltB64 ivB64 : String) : Option String :=
  decryptWithKey M encryptedB64 (deriveKey M password saltB64) ivB64

end CryptoUtils

/-! ## The symbolic manager model (`NotebookManager`)

The note store works with opaque persisted tokens: a note's `content`
string is either empty (a fresh note), the output of `compress`, the
`encryptedData` of an AES-GCM encryption, or some other string.  For the
store-level claims the model keeps these token classes symbolic:
`Content.comp t` stands for `compress(t)`, `Content.cipher k iv t` for the
ciphertext of `t` under key `k` and nonce `iv`, mirroring that compression
is deterministic and that authenticated decryption succeeds exactly with
the key and iv it was produced with.  A derived key is identified by the
(password, salt) pair fed to the deterministic PBKDF2. -/

namespace Model

/-- A derived AES key, identified by its deterministic derivation inputs
(password, salt). -/
abbrev Key : Type := String × String

/-- A persisted note `content` string, classified by how it was produced. -/
inductive Content
  /-- The empty string (content of a freshly added note). -/
  | empty : Content
  /-- `compress(text)`. -/
  | comp (text : String) : Content
  /-- `CryptoUtils.encryptWithKey(text, key, _, iv).encryptedData`. -/
  | cipher (key : Key) (iv : String) (text : String) : Content
  /-- Any other persisted string. -/
  | raw (s : String) : Content
deriving DecidableEq

/-- JavaScript truthiness of the stored content string: only the empty
string is falsy (compressed and ciphertext tokens are never empty). -/
def Content.isTruthy : Content → Bool
  | .empty => false
  | .raw s => !(s == "")
  | _ => true

/-- `decompress` at the store level: only a `compress` token decompresses;
everything else throws (`none`). -/
def decompressC : Content → Option String
  | .comp t => some t
  | _ => none

/-- `CryptoUtils.deriveKey(password, salt)` at the store level. -/
def deriveKeyC (password salt : String) : Key := (password, salt)

/-- `CryptoUtils.encryptWithKey(text, key, salt, iv).encryptedData`. -/
def encryptWithKeyC (text : String) (key : Key) (iv : String) : Content :=
  .cipher key iv text

/-- `CryptoUtils.decryptWithKey(content, key, iv)`: authenticated
decryption succeeds exactly on a ciphertext made with the same key and
iv. -/
def decryptWithKeyC (c : Content) (key : Key) (iv : String) : Option String :=
  match c with
  | .cipher k i t => if k = key ∧ i = iv then some t else none
  | _ => none

/-- A note record (§3 of the spec; `addNotebook`,
src/src/scripts/utils.js lines 334-354).  `salt`/`iv` hold `""` for the
JavaScript `null`; `searchableContent` holds `""` when absent. -/
structure Note where
  id : Nat
  title : String
  content : Content
  mode : String
  dir : String
  paperTheme : String
  createdAt : Nat
  lastModified : Nat
  encrypted : Bool
  salt : String
  iv : String
  pinned : Bool
  tags : List String
  searchableContent : String
deriving DecidableEq

/-- One recorded call of the AES-GCM encryption primitive: the (key, iv)
pair it was invoked with.  Operations return the list of such calls they
performed, so nonce reuse is observable. -/
abbrev EncEvent : Type := Key × String

/-- The `NotebookManager` state: the persisted collection and active id,
the page mode, the in-memory session key cache, and the editing surface
(`window.article.innerText` and its `contentEditable` flag). -/
structure MgrState where
  notebooks : List Note
  activeId : Option Nat
  mode : String
  sessionKeys : List (Nat × Key)
  paperTheme : String
  articleText : String
  articleEditable : Bool
deriving DecidableEq

/-- `this.notebooks.find((n) => n.id === id)`. -/
def findNote (st : MgrState) (id : Nat) : Option Note :=
  st.notebooks.find? (fun n => n.id == id)

/-- `this.sessionKeys.get(id)`. -/
def getKey (m : List (Nat × Key)) (id : Nat) : Option Key :=
  (m.find? (fun p => p.1 == id)).map (fun p => p.2)

/-- `this.sessionKeys.set(id, k)`. -/
def setKey (m : List (Nat × Key)) (id : Nat) (k : Key) : List (Nat × Key) :=
  match m with
  | [] => [(id, k)]
  | (i, v) :: rest => if i == id then (i, k) :: rest else (i, v) :: setKey rest id k

/-- In-place mutation of the first note with the given id (JavaScript
mutates the object returned by `find`). -/
def replaceFirst (l : List Note) (id : Nat) (f : Note → Note) : List Note :=
  match l with
  | [] => []
  | n :: rest => if n.id == id then f n :: rest else n :: replaceFirst rest id f

/-- `window.article.innerText` shown for a locked note. -/
def lockedPlaceholder : String :=
  "This note is encrypted. Please unlock it to view its content."

/-- A character matched by the `\w` regex class. -/
def isWordChar (c : Char) : Bool := c.isAlphanum || c = '_'

/-- All matches of the global tag regex (`#` followed by word characters)
in order, as matched text including the `#`.  The fuel argument (always
the character count) only bounds the recursion. -/
def tagMatchesF : Nat → List Char → List String
  | 0, _ => []
  | _, [] => []
  | fuel + 1, c :: rest =>
    if c = '#' then
      let w := rest.takeWhile isWordChar
      if w.isEmpty then tagMatchesF fuel rest
      else String.mk ('#' :: w) :: tagMatchesF fuel (rest.drop w.length)
    else tagMatchesF fuel rest

/-- `content.match(/#(\w+)/g) || []` (as a list of matched strings). -/
def tagMatches (content : String) : List String :=
  tagMatchesF content.data.length content.data

/-- `[...new Set(l)]`: deduplication keeping first occurrences. -/
def jsDedupAux {α : Type} [BEq α] (seen : List α) : List α → List α
  | [] => []
  | a :: rest =>
    if seen.contains a then jsDedupAux seen rest
    else a :: jsDedupAux (a :: seen) rest

/-- `[...new Set(l)]`. -/
def jsDedup {α : Type} [BEq α] (l : List α) : List α := jsDedupAux [] l

/-- `toLowerCase()`.  (List-level so that it evaluates by reduction.) -/
def toLowerJs (s : String) : String := String.mk (s.data.map Char.toLower)

/-- `trim()`.  (List-level so that it evaluates by reduction.) -/
def trimJs (s : String) : String :=
  String.mk
    (((s.data.dropWhile Char.isWhitespace).reverse.dropWhile Char.isWhitespace).reverse)

/-- `t.substring(1).toLowerCase()` over the matched tag texts. -/
def contentTags (content : String) : List String :=
  (jsDedup (tagMatches content)).map (fun t => toLowerJs (String.mk (t.data.drop 1)))

/-- Try to match `seq` literally at the head; return the rest on success. -/
def eatSeq : List Char → List Char → Option (List Char)
  | [], cs => some cs
  | _, [] => none
  | s :: ss, c :: cs => if c = s then eatSeq ss cs else none

/-- Lazy scan (`.*?`) up to the literal `seq`: consume the shortest run of
non-newline characters followed by `seq`, returning what follows. -/
def lazyUntil (seq : List Char) : List Char → Option (List Char)
  | [] => none
  | c :: cs =>
    match eatSeq seq (c :: cs) with
    | some rest => some rest
    | none => if c = '\n' ∨ c = '\r' then none else lazyUntil seq cs

/-- Match the embedded-image regex
(bang, bracketed alt text, then a parenthesised base64 data-image URL)
at the head of the input; return the rest after the match. -/
def matchImage (cs : List Char) : Option (List Char) :=
  match eatSeq ("![").data cs with
  | none => none
  | some r1 =>
    match lazyUntil ("](data:image/").data r1 with
    | none => none
    | some r2 =>
      match lazyUntil (";base64,").data r2 with
      | none => none
      | some r3 => lazyUntil (")").data r3

/-- Global replacement of every image match by the empty string.  The fuel
argument (always the character count) only bounds the recursion; every
step consumes at least one character. -/
def stripImagesF : Nat → List Char → List Char
  | 0, l => l
  | _, [] => []
  | fuel + 1, c :: cs =>
    match matchImage (c :: cs) with
    | some r => stripImagesF fuel r
    | none => c :: stripImagesF fuel cs

/-- `content.replace(imageRegex, '')`. -/
def stripImages (content : String) : String :=
  String.mk (stripImagesF content.data.length content.data)

/-- The derived search cache text: images stripped, lowercased. -/
def searchableOf (content : String) : String :=
  toLowerJs (stripImages content)

/-- The auto-title source: first line of the content (the segment before
the first newline), trimmed, then truncated to its first 30 characters. -/
def firstLineOf (content : String) : String :=
  String.mk ((trimJs (String.mk (content.data.takeWhile (fun c => !(c == '\n'))))).data.take 30)

/-- The debounced autosave body (`saveAction` in `setupAutoSave`,
src/src/scripts/utils.js lines 393-451).  Uses the editing surface text as
`window.getNoteContent()`.  Returns the new state and the encryption
calls performed. -/
def saveAction (st : MgrState) (now : Nat) : MgrState × List EncEvent :=
  let content := st.articleText
  match st.activeId with
  | none => (st, [])
  | some aid =>
    match findNote st aid with
    | none => (st, [])
    | some note =>
      if !st.articleEditable then (st, [])
      else
        let step :
            Option (Content × List EncEvent) :=
          if note.encrypted then
            match getKey st.sessionKeys note.id with
            | some key => some (encryptWithKeyC content key note.iv, [(key, note.iv)])
            | none => none
          else
            some (.comp content, [])
        match step with
        | none => (st, [])
        | some (newContent, events) =>
          let newTags := jsDedup (note.tags ++ contentTags content)
          let fl := firstLineOf content
          let newTitle :=
            if note.title == "Untitled Note" || note.title == "Shared Note" then
              if !(fl == "") && fl.length > 2 then fl else note.title
            else note.title
          let note' :=
            { note with
                content := newContent
                lastModified := now
                tags := newTags
                searchableContent := searchableOf content
                title := newTitle }
          ({ st with notebooks := replaceFirst st.notebooks aid (fun _ => note') }, events)

/-- A user edit of the editing surface (typing between autosaves). -/
def setArticle (st : MgrState) (text : String) : MgrState :=
  { st with articleText := text }

/-- A fresh note record as built by `addNotebook`
(src/src/scripts/utils.js lines 334-354). -/
def mkNotebook (id : Nat) (title : String) (content : Content) (mode : String)
    (managerTheme : String) (now : Nat) : Note :=
  { id := id, title := title, content := content, mode := mode, dir := "ltr",
    paperTheme := if managerTheme == "" then "classic" else managerTheme,
    createdAt := now, lastModified := now, encrypted := false,
    salt := "", iv := "", pinned := false, tags := [],
    searchableContent := "" }

/-- `addNotebook(title, content, mode)`; the generated UUID and
`Date.now()` are parameters. -/
def addNotebook (st : MgrState) (title : String) (content : Content)
    (mode : String) (freshId now : Nat) : MgrState × Note :=
  let nb := mkNotebook freshId title content mode st.paperTheme now
  ({ st with notebooks := st.notebooks ++ [nb] }, nb)

/-- `ensureActiveNote()` (src/src/scripts/utils.js lines 313-332). -/
def ensureActiveNote (st : MgrState) (freshId now : Nat) : MgrState :=
  let filtered := st.notebooks.filter (fun n => n.mode == st.mode)
  if filtered.isEmpty then
    let p := addNotebook st ("Untitled Note") Content.empty st.mode freshId now
    { p.1 with activeId := some p.2.id }
  else
    let activeMissing : Bool :=
      match st.activeId with
      | none => true
      | some aid =>
        (st.notebooks.find? (fun n => n.id == aid && n.mode == st.mode)).isNone
    if activeMissing then
      { st with activeId := (filtered.getLast?).map Note.id }
    else st

/-- `loadActiveNote()` (src/src/scripts/utils.js lines 356-387), restricted
to its effect on the modelled state: it rebinds the editing surface.  A
failed decompress leaves the surface untouched (the caught error). -/
def loadActiveNote (st : MgrState) : MgrState :=
  match st.activeId with
  | none => st
  | some aid =>
    match findNote st aid with
    | none => st
    | some note =>
      if note.encrypted then
        { st with articleText := lockedPlaceholder, articleEditable := false }
      else
        if note.content.isTruthy then
          match decompressC note.content with
          | some t => { st with articleText := t, articleEditable := true }
          | none => st
        else { st with articleText := "", articleEditable := true }

/-- `confirmDelete()` for a pending id (src/src/scripts/utils.js lines
501-515): remove the note, and if it was active re-establish an active
note. -/
def confirmDelete (st : MgrState) (id : Nat) (freshId now : Nat) : MgrState :=
  let nbs := st.notebooks.filter (fun n => !(n.id == id))
  if st.activeId == some id then
    loadActiveNote (ensureActiveNote { st with notebooks := nbs, activeId := none } freshId now)
  else
    { st with notebooks := nbs }

/-- `confirmLock()` for a pending id (src/src/scripts/utils.js lines
578-621).  The fresh random salt and iv of `CryptoUtils.encrypt` are
parameters.  A thrown decompress (re-keying an encrypted note whose token
is real ciphertext) is the caught branch: no mutation. -/
def confirmLock (st : MgrState) (id : Nat) (password : String)
    (freshSalt freshIv : String) (now : Nat) : MgrState × List EncEvent :=
  if password == "" then (st, [])
  else
    match findNote st id with
    | none => (st, [])
    | some note =>
      let contentToEncrypt :=
        if note.encrypted then decompressC note.content else some st.articleText
      match contentToEncrypt with
      | none => (st, [])
      | some text =>
        let key := deriveKeyC password freshSalt
        let note' :=
          { note with
              content := encryptWithKeyC text key freshIv
              salt := freshSalt
              iv := freshIv
              encrypted := true
              lastModified := now
              searchableContent := "" }
        let st' :=
          { st with
              notebooks := replaceFirst st.notebooks id (fun _ => note')
              sessionKeys := setKey st.sessionKeys note.id key }
        let st'' :=
          if st.activeId == some id then
            { st' with articleText := lockedPlaceholder, articleEditable := false }
          else st'
        (st'', [(key, freshIv)])

/-- Result of `confirmUnlock`: nothing happened, plain success, rescue of a
corrupted note, or the `Incorrect password!` alert. -/
inductive UnlockResult
  | noop
  | success
  | recovered
  | wrongPassword
deriving DecidableEq

/-- Output of `confirmUnlock`. -/
structure UnlockOut where
  st : MgrState
  events : List EncEvent
  result : UnlockResult
deriving DecidableEq

/-- `confirmUnlock()` for a pending id (src/src/scripts/utils.js lines
636-718): try authenticated decryption; on failure try the corruption
rescue (treat the stored token as compressed plaintext and, for the active
note, re-encrypt it under the supplied password); otherwise report an
incorrect password.  The fresh salt and iv of the rescue re-encryption are
parameters. -/
def confirmUnlock (st : MgrState) (id : Nat) (password : String)
    (freshSalt freshIv : String) : UnlockOut :=
  if password == "" then ⟨st, [], .noop⟩
  else
    match findNote st id with
    | none => ⟨st, [], .noop⟩
    | some note =>
      let key := deriveKeyC password note.salt
      match decryptWithKeyC note.content key note.iv with
      | some decrypted =>
        let st₁ := { st with sessionKeys := setKey st.sessionKeys note.id key }
        let st₂ :=
          if st.activeId == some note.id then
            { st₁ with articleText := decrypted, articleEditable := true }
          else st₁
        let st₃ :=
          { st₂ with
              notebooks := replaceFirst st₂.notebooks id
                (fun n => { n with searchableContent := searchableOf decrypted }) }
        ⟨st₃, [], .success⟩
      | none =>
        match decompressC note.content with
        | some decompressed =>
          if !(decompressed == "") && decompressed.length > 0 then
            if st.activeId == some note.id then
              let newKey := deriveKeyC password freshSalt
              let note' :=
                { note with
                    content := encryptWithKeyC decompressed newKey freshIv
                    salt := freshSalt
                    iv := freshIv
                    searchableContent := "" }
              let st' :=
                { st with
                    articleText := decompressed
                    articleEditable := true
                    notebooks := replaceFirst st.notebooks id (fun _ => note')
                    sessionKeys := setKey st.sessionKeys note.id newKey }
              ⟨st', [(newKey, freshIv)], .recovered⟩
            else ⟨st, [], .recovered⟩
          else ⟨st, [], .wrongPassword⟩
        | none => ⟨st, [], .wrongPassword⟩

/-- Per-note body of `rebuildSearchIndex()` (src/src/scripts/utils.js
lines 212-231). -/
def rebuildNote (n : Note) : Note :=
  if !n.encrypted && n.searchableContent == "" && n.content.isTruthy then
    match decompressC n.content with
    | some d => { n with searchableContent := searchableOf d }
    | none => n
  else n

/-- `rebuildSearchIndex()`. -/
def rebuildSearchIndex (st : MgrState) : MgrState :=
  { st with notebooks := st.notebooks.map rebuildNote }

/-- The metadata recovered from a URL fragment after `decompress` and the
JSON parse (or the bare-text fallback), with the defaults of
`handleUrlParam` (src/src/scripts/utils.js lines 262-284) already
applied. -/
structure ImportData where
  content : Content
  dir : String
  theme : String
  created : Nat
  modified : Nat
  enc : Bool
  salt : String
  iv : String
deriving DecidableEq

/-- The import step of `handleUrlParam()` (src/src/scripts/utils.js lines
257-311), given a fragment that passed the length guard and decoded to
`imp`.  `hash` is the raw fragment token itself (a `Content` value, since
it is compared against stored contents).  Returns the new state and
whether the unlock flow was presented. -/
def handleUrlParam (st : MgrState) (hash : Content) (imp : ImportData)
    (freshId now : Nat) : MgrState × Bool :=
  match st.notebooks.find? (fun n => n.content == hash) with
  | some existing => ({ st with activeId := some existing.id }, imp.enc)
  | none =>
    let p := addNotebook st ("Shared Note") imp.content st.mode freshId now
    let newNote :=
      { p.2 with
          dir := imp.dir
          paperTheme := imp.theme
          createdAt := imp.created
          lastModified := imp.modified
          encrypted := imp.enc
          salt := imp.salt
          iv := imp.iv }
    ({ st with
        notebooks := st.notebooks ++ [newNote]
        activeId := some newNote.id }, imp.enc)

end Model

/-! ## Concrete states used by the claim theorems -/

namespace Model

/-- A default plain note, for building concrete states. -/
def baseNote (id : Nat) : Note :=
  { id := id, title := "Note", content := .empty, mode := "plain", dir := "ltr",
    paperTheme := "classic", createdAt := 1, lastModified := 1, encrypted := false,
    salt := "", iv := "", pinned := false, tags := [], searchableContent := "" }

/-- A default manager state, for building concrete states. -/
def baseState : MgrState :=
  { notebooks := [], activeId := none, mode := "plain", sessionKeys := [],
    paperTheme := "classic", articleText := "", articleEditable := true }

/-- An encrypted, locked, active note's state: its content is ciphertext
under the key derived from password `pw` and salt `s`, with stored nonce
`i`; no session key is cached. -/
def lockedSt : MgrState :=
  { baseState with
      notebooks := [{ baseNote 1 with
          encrypted := true,
          content := .cipher ("pw", "s") "i" "Secret Stuff",
          salt := "s",
          iv := "i" }],
      activeId := some 1,
      articleText := lockedPlaceholder,
      articleEditable := false }

/-- An editable encrypted active note with no cached session key (the
corruption-prone situation the autosave guard protects against). -/
def c1St : MgrState :=
  { baseState with
      notebooks := [{ baseNote 1 with
          encrypted := true,
          content := .cipher ("pw", "s") "i" "Secret Stuff",
          salt := "s",
          iv := "i" }],
      activeId := some 1,
      articleText := "typed plaintext",
      articleEditable := true }

/-- The note of `c1St`. -/
def c1Note : Note :=
  { baseNote 1 with
      encrypted := true,
      content := .cipher ("pw", "s") "i" "Secret Stuff",
      salt := "s",
      iv := "i" }

/-- State after unlocking `lockedSt` with the correct password. -/
def c2St1 : MgrState := (confirmUnlock lockedSt 1 "pw" "fs" "fi").st

/-- State after the first autosave of an edit. -/
def c2St2 : MgrState := (saveAction (setArticle c2St1 ("first edit")) 10).1

/-- A state whose active note 1 is plain while note 2 is an encrypted note
corrupted by the autosave bug: its content is a compressed-plaintext
token. -/
def c4St : MgrState :=
  { baseState with
      notebooks := [baseNote 1,
        { baseNote 2 with
            encrypted := true,
            content := .comp "rescued text",
            salt := "s",
            iv := "i" }],
      activeId := some 1 }

/-- A state whose single, active, corrupted encrypted note is the note the
rescue path repairs. -/
def c4WSt : MgrState :=
  { baseState with
      notebooks := [{ baseNote 1 with
          encrypted := true,
          content := .comp "rescued text",
          salt := "s",
          iv := "i" }],
      activeId := some 1,
      articleText := lockedPlaceholder,
      articleEditable := false }

/-- A mixed state: one encrypted note (empty search cache) and one plain
note. -/
def c3WSt : MgrState :=
  { baseState with
      notebooks := [{ baseNote 1 with
          encrypted := true,
          content := .cipher ("pw", "s") "i" "hidden",
          salt := "s",
          iv := "i" },
        { baseNote 2 with content := .comp "visible" }],
      activeId := some 2 }

/-- A state holding one plain note whose stored content is the compressed
token of the text `hello`. -/
def c8St : MgrState :=
  { baseState with
      notebooks := [{ baseNote 1 with content := .comp "hello" }],
      activeId := some 1 }

/-- Import data whose content token is byte-identical to the stored
content of the existing note of `c8St`. -/
def c8Imp : ImportData :=
  { content := .comp "hello", dir := "rtl", theme := "sepia", created := 5,
    modified := 6, enc := false, salt := "", iv := "" }

/-- Three same-mode notes; the active note 1 is deleted, remaining note 2
is more recent than note 3 by both timestamps, yet note 3 is last in
collection order. -/
def c9St : MgrState :=
  { baseState with
      notebooks := [{ baseNote 1 with lastModified := 300, createdAt := 30 },
        { baseNote 2 with lastModified := 200, createdAt := 50 },
        { baseNote 3 with lastModified := 100, createdAt := 10 }],
      activeId := some 1 }

/-- Two notes with the active one deleted and one other note of the same
mode remaining. -/
def c9WSt : MgrState :=
  { baseState with
      notebooks := [{ baseNote 1 with lastModified := 300 },
        { baseNote 2 with lastModified := 200 }],
      activeId := some 1 }

/-- An active untitled plain note with typed content. -/
def c10St : MgrState :=
  { baseState with
      notebooks := [{ baseNote 1 with title := "Untitled Note" }],
      activeId := some 1,
      articleText := "hello #Tag1 world" }

end Model

/-! ## Codec lemmas -/

theorem char_toNat_lt (c : Char) : c.toNat < 1114112 := by
  have h := c.valid
  rcases h with h | h
  · exact Nat.lt_trans h (by norm_num)
  · exact h.2

theorem utf8EncodeChar_lt_256 (c : Char) : ∀ b ∈ utf8EncodeChar c, b < 256 := by
  intro b hb
  have hc := char_toNat_lt c
  unfold utf8EncodeChar at hb
  by_cases h1 : c.toNat < 128 <;> by_cases h2 : c.toNat < 2048 <;>
    by_cases h3 : c.toNat < 65536 <;>
    simp only [h1, h2, h3, if_true, if_false, List.mem_cons, List.not_mem_nil, or_false] at hb <;>
    omega

theorem utf8EncodeList_lt_256 (l : List Char) : ∀ b ∈ utf8EncodeList l, b < 256 := by
  induction l with
  | nil => intro b hb; simp [utf8EncodeList] at hb
  | cons c cs ih =>
    intro b hb
    simp only [utf8EncodeList, List.mem_append] at hb
    rcases hb with hb | hb
    · exact utf8EncodeChar_lt_256 c b hb
    · exact ih b hb

theorem utf8Decode_encodeChar (c : Char) (bs : List Nat) :
    utf8Decode (utf8EncodeChar c ++ bs) = c :: utf8Decode bs := by
  have hc := char_toNat_lt c
  have hofn : Char.ofNat c.toNat = c := Char.ofNat_toNat c
  unfold utf8EncodeChar
  by_cases h1 : c.toNat < 128
  · simp only [h1, if_true, List.cons_append, List.nil_append]
    rw [utf8Decode]
    simp only [h1, if_true, hofn]
  · by_cases h2 : c.toNat < 2048
    · simp only [h1, if_false, h2, if_true, List.cons_append, List.nil_append]
      rw [utf8Decode]
      have hb1 : ¬ (192 + c.toNat / 64 < 128) := by omega
      have hb2 : 192 + c.toNat / 64 < 224 := by omega
      simp only [hb1, if_false, hb2, if_true, List.headD_cons, List.drop_succ_cons,
        List.drop_zero]
      have harg : (192 + c.toNat / 64 - 192) * 64 + (128 + c.toNat % 64 - 128) = c.toNat := by
        omega
      rw [harg, hofn]
    · by_cases h3 : c.toNat < 65536
      · simp only [h1, if_false, h2, h3, if_true, List.cons_append, List.nil_append]
        rw [utf8Decode]
        have hb1 : ¬ (224 + c.toNat / 4096 < 128) := by omega
        have hb2 : ¬ (224 + c.toNat / 4096 < 224) := by omega
        have hb3 : 224 + c.toNat / 4096 < 240 := by omega
        simp only [hb1, if_false, hb2, hb3, if_true, List.headD_cons, List.drop_succ_cons,
          List.drop_zero]
        have harg : (224 + c.toNat / 4096 - 224) * 4096 +
            (128 + c.toNat / 64 % 64 - 128) * 64 + (128 + c.toNat % 64 - 128) = c.toNat := by
          omega
        rw [harg, hofn]
      · simp only [h1, if_false, h2, h3, List.cons_append, List.nil_append]
        rw [utf8Decode]
        have hb1 : ¬ (240 + c.toNat / 262144 < 128) := by omega
        have hb2 : ¬ (240 + c.toNat / 262144 < 224) := by omega
        have hb3 : ¬ (240 + c.toNat / 262144 < 240) := by omega
        simp only [hb1, if_false, hb2, hb3, List.headD_cons, List.drop_succ_cons,
          List.drop_zero]
        have harg : (240 + c.toNat / 262144 - 240) * 262144 +
            (128 + c.toNat / 4096 % 64 - 128) * 4096 +
            (128 + c.toNat / 64 % 64 - 128) * 64 + (128 + c.toNat % 64 - 128) = c.toNat := by
          omega
        rw [harg, hofn]

theorem utf8Decode_encodeList (l : List Char) :
    utf8Decode (utf8EncodeList l) = l := by
  induction l with
  | nil => rw [utf8EncodeList, utf8Decode]
  | cons c cs ih =>
    rw [utf8EncodeList, utf8Decode_encodeChar, ih]

theorem b64Val_b64Char_small : ∀ n, n < 64 → b64Val (b64Char n) = n := by decide

theorem b64Char_spec (n : Nat) :
    b64Char n ≠ '=' ∧ b64Char n ≠ '-' ∧ b64Char n ≠ '_' := by
  by_cases h : n < 64
  · exact (by decide : ∀ m, m < 64 → b64Char m ≠ '=' ∧ b64Char m ≠ '-' ∧ b64Char m ≠ '_') n h
  · have hlen : b64Alphabet.length ≤ n := by
      have : b64Alphabet.length = 64 := by decide
      omega
    unfold b64Char
    rw [List.getD_eq_default _ _ hlen]
    decide

theorem fromBase64_toBase64 :
    ∀ bs : List Nat, (∀ b ∈ bs, b < 256) → fromBase64 (toBase64 bs) = bs
  | [], _ => rfl
  | [a], h => by
    have ha : a < 256 := h a (by simp)
    rw [toBase64, fromBase64]
    rw [if_pos rfl]
    rw [b64Val_b64Char_small _ (by omega), b64Val_b64Char_small _ (by omega)]
    have : a / 4 * 4 + a % 4 * 16 / 16 = a := by omega
    rw [this]
  | [a, b], h => by
    have ha : a < 256 := h a (by simp)
    have hb : b < 256 := h b (by simp)
    rw [toBase64, fromBase64]
    rw [if_neg (b64Char_spec _).1, if_pos rfl]
    rw [b64Val_b64Char_small _ (by omega), b64Val_b64Char_small _ (by omega),
      b64Val_b64Char_small _ (by omega)]
    have h1 : a / 4 * 4 + (a % 4 * 16 + b / 16) / 16 = a := by omega
    have h2 : (a % 4 * 16 + b / 16) % 16 * 16 + b % 16 * 4 / 4 = b := by omega
    rw [h1, h2]
  | a :: b :: c :: rest, h => by
    have ha : a < 256 := h a (by simp)
    have hb : b < 256 := h b (by simp)
    have hc : c < 256 := h c (by simp)
    have ih := fromBase64_toBase64 rest (fun x hx => h x (by simp [hx]))
    rw [toBase64, fromBase64.eq_def]
    simp only []
    rw [if_neg (b64Char_spec _).1, if_neg (b64Char_spec _).1]
    rw [b64Val_b64Char_small _ (by omega), b64Val_b64Char_small _ (by omega),
      b64Val_b64Char_small _ (by omega), b64Val_b64Char_small _ (by omega)]
    have h1 : a / 4 * 4 + (a % 4 * 16 + b / 16) / 16 = a := by omega
    have h2 : (a % 4 * 16 + b / 16) % 16 * 16 + (b % 16 * 4 + c / 64) / 4 = b := by omega
    have h3 : (b % 16 * 4 + c / 64) % 4 * 64 + c % 64 = c := by omega
    rw [h1, h2, h3, ih]

theorem toBase64_chars :
    ∀ bs : List Nat, ∀ ch ∈ toBase64 bs, ch = '=' ∨ ∃ n, ch = b64Char n
  | [], ch => by rw [toBase64]; intro h; simp at h
  | [a], ch => by
    rw [toBase64]
    intro h
    simp only [List.mem_cons, List.not_mem_nil, or_false] at h
    rcases h with rfl | rfl | rfl | rfl
    · exact Or.inr ⟨_, rfl⟩
    · exact Or.inr ⟨_, rfl⟩
    · exact Or.inl rfl
    · exact Or.inl rfl
  | [a, b], ch => by
    rw [toBase64]
    intro h
    simp only [List.mem_cons, List.not_mem_nil, or_false] at h
    rcases h with rfl | rfl | rfl | rfl
    · exact Or.inr ⟨_, rfl⟩
    · exact Or.inr ⟨_, rfl⟩
    · exact Or.inr ⟨_, rfl⟩
    · exact Or.inl rfl
  | a :: b :: c :: rest, ch => by
    rw [toBase64]
    intro h
    simp only [List.mem_cons] at h
    rcases h with rfl | rfl | rfl | rfl | h
    · exact Or.inr ⟨_, rfl⟩
    · exact Or.inr ⟨_, rfl⟩
    · exact Or.inr ⟨_, rfl⟩
    · exact Or.inr ⟨_, rfl⟩
    · exact toBase64_chars rest ch h

theorem swapDec_swapEnc (c : Char) (h1 : c ≠ '-') (h2 : c ≠ '_') :
    swapDec (swapEnc c) = c := by
  unfold swapEnc swapDec
  by_cases hp : c = '+'
  · simp [hp]
  · by_cases hs : c = '/'
    · simp [hs, hp]
    · simp [hp, hs, h1, h2]

theorem swap_roundtrip_toBase64 (bs : List Nat) :
    (toBase64 bs).map (fun c => swapDec (swapEnc c)) = toBase64 bs := by
  apply List.map_congr_left ?_ |>.trans (List.map_id _)
  intro ch hch
  rcases toBase64_chars bs ch hch with rfl | ⟨n, rfl⟩
  · decide
  · exact swapDec_swapEnc _ (b64Char_spec n).2.1 (b64Char_spec n).2.2

theorem isUrlSafe_swapEnc (ch : Char) (h : ch = '=' ∨ ∃ n, ch = b64Char n) :
    isUrlSafe (swapEnc ch) = true := by
  rcases h with rfl | ⟨n, rfl⟩
  · decide
  · by_cases hn : n < 64
    · exact (by decide :
        ∀ m, m < 64 → isUrlSafe (swapEnc (b64Char m)) = true) n hn
    · have hlen : b64Alphabet.length ≤ n := by
        have : b64Alphabet.length = 64 := by decide
        omega
      unfold b64Char
      rw [List.getD_eq_default _ _ hlen]
      decide

theorem string_mk_data (s : String) : String.mk s.data = s := rfl

/-- Undoing the URL-safe swap and the base64 encoding recovers the bytes. -/
theorem b64url_roundtrip (bs : List Nat) (h : ∀ b ∈ bs, b < 256) :
    fromBase64 (((toBase64 bs).map swapEnc).map swapDec) = bs := by
  rw [List.map_map]
  have : (toBase64 bs).map (swapDec ∘ swapEnc)
      = (toBase64 bs).map (fun c => swapDec (swapEnc c)) := rfl
  rw [this, swap_roundtrip_toBase64, fromBase64_toBase64 bs h]

theorem bytesOfB64url_b64urlOfBytes (bs : List Nat) (h : ∀ b ∈ bs, b < 256) :
    bytesOfB64url (b64urlOfBytes bs) = bs := by
  unfold bytesOfB64url b64urlOfBytes
  rw [string_mk_data ⟨_⟩]
  exact b64url_roundtrip bs h

/-! ## Manager model lemmas -/

theorem data_mk (l : List Char) : (String.mk l).data = l := rfl

theorem string_length_pos_of_ne_empty (s : String) (h : ¬ s = "") : s.length > 0 := by
  obtain ⟨l⟩ := s
  cases l with
  | nil => exact absurd rfl h
  | cons c cs => simp [String.length]

theorem string_ne_empty_of_length_gt (s : String) (h : s.length > 2) : ¬ s = "" := by
  intro he
  subst he
  simp [String.length] at h

theorem Model.find?_replaceFirst (l : List Model.Note) (id : Nat)
    (f : Model.Note → Model.Note) (note : Model.Note)
    (hf : l.find? (fun n => n.id == id) = some note)
    (hid : (f note).id = note.id) :
    (Model.replaceFirst l id f).find? (fun n => n.id == id) = some (f note) := by
  induction l with
  | nil => simp [List.find?] at hf
  | cons n rest ih =>
    cases h : (n.id == id) with
    | true =>
      simp only [List.find?_cons, h] at hf
      injection hf with hf
      subst hf
      simp [Model.replaceFirst, h, List.find?_cons, hid]
    | false =>
      simp only [List.find?_cons, h] at hf
      simp only [Model.replaceFirst, h, Bool.false_eq_true, if_false, List.find?_cons]
      exact ih hf

theorem Model.mem_replaceFirst_const (l : List Model.Note) (id : Nat)
    (x : Model.Note) (n : Model.Note)
    (h : n ∈ Model.replaceFirst l id (fun _ => x)) : n ∈ l ∨ n = x := by
  induction l with
  | nil => simp [Model.replaceFirst] at h
  | cons m rest ih =>
    rw [Model.replaceFirst] at h
    by_cases hm : (m.id == id) = true
    · rw [if_pos hm] at h
      rcases List.mem_cons.1 h with h | h
      · exact Or.inr h
      · exact Or.inl (List.mem_cons_of_mem _ h)
    · rw [if_neg hm] at h
      rcases List.mem_cons.1 h with h | h
      · exact Or.inl (h ▸ List.mem_cons_self _ _)
      · rcases ih h with h | h
        · exact Or.inl (List.mem_cons_of_mem _ h)
        · exact Or.inr h

theorem Model.getKey_setKey (m : List (Nat × Model.Key)) (id : Nat) (k : Model.Key) :
    Model.getKey (Model.setKey m id k) id = some k := by
  induction m with
  | nil => simp [Model.setKey, Model.getKey, List.find?]
  | cons p rest ih =>
    obtain ⟨i, v⟩ := p
    rw [Model.setKey]
    cases h : (i == id) with
    | true => simp [Model.getKey, List.find?_cons, h]
    | false =>
      simp only [Bool.false_eq_true, if_false]
      unfold Model.getKey at ih ⊢
      simp only [List.find?_cons, h]
      exact ih

theorem Model.findNote_id (st : Model.MgrState) (id : Nat) (note : Model.Note)
    (h : Model.findNote st id = some note) : note.id = id := by
  have := List.find?_some h
  exact eq_of_beq this

theorem Model.rebuildNote_encrypted (n : Model.Note) :
    (Model.rebuildNote n).encrypted = n.encrypted := by
  unfold Model.rebuildNote
  by_cases h : (!n.encrypted && n.searchableContent == "" && n.content.isTruthy) = true
  · rw [if_pos h]
    cases hd : Model.decompressC n.content <;> simp
  · rw [if_neg h]

theorem Model.rebuildNote_of_encrypted (n : Model.Note) (h : n.encrypted = true) :
    Model.rebuildNote n = n := by
  unfold Model.rebuildNote
  rw [if_neg]
  rw [h]
  simp

theorem Model.loadActiveNote_notebooks (st : Model.MgrState) :
    (Model.loadActiveNote st).notebooks = st.notebooks := by
  unfold Model.loadActiveNote
  repeat first | rfl | split

theorem Model.loadActiveNote_activeId (st : Model.MgrState) :
    (Model.loadActiveNote st).activeId = st.activeId := by
  unfold Model.loadActiveNote
  repeat first | rfl | split

/-! ## Claim theorems -/

/-- C1: for every note with `encrypted = true` and no session key cached
for its id, invoking autosave leaves the note (indeed the whole manager
state) unchanged and performs no encryption: the save is skipped
entirely, so no field is overwritten with plaintext-derived compressed
content. -/
theorem autosave_encrypted_no_key_skips (st : Model.MgrState) (id : Nat)
    (note : Model.Note) (now : Nat)
    (hact : st.activeId = some id)
    (hfind : Model.findNote st id = some note)
    (henc : note.encrypted = true)
    (hkey : Model.getKey st.sessionKeys note.id = none) :
    Model.saveAction st now = (st, []) := by
  unfold Model.saveAction
  simp only [hact, hfind]
  cases hed : st.articleEditable with
  | false => simp
  | true => simp [henc, hkey]

/-- Witness for C1 at a concrete state: an editable encrypted note with an
empty session-key cache is untouched by autosave. -/
theorem autosave_encrypted_no_key_skips_witness :
    Model.saveAction Model.c1St 5 = (Model.c1St, []) :=
  autosave_encrypted_no_key_skips Model.c1St 1 Model.c1Note 5 (by decide) (by decide)
    (by decide) (by decide)

/-- C2: refuted on the code; the code is the slip.  After unlocking an
encrypted note with the correct password, each autosave re-encrypts the
edited content with the cached session key and the *stored* `note.iv` —
the very nonce that already produced the existing ciphertext under the
same key — and never refreshes it.  Two successive autosaves of different
plaintexts therefore both invoke AES-GCM with the identical (key, iv)
pair, so the nonce is reused with the same key, contrary to the claim. -/
theorem autosave_reuses_stored_iv :
    (Model.saveAction (Model.setArticle Model.c2St1 ("first edit")) 10).2
      = [(("pw", "s"), "i")] ∧
    (Model.saveAction (Model.setArticle Model.c2St2 ("second edit")) 20).2
      = [(("pw", "s"), "i")] ∧
    (Model.findNote Model.c2St2 1).map Model.Note.content
      = some (Model.Content.cipher ("pw", "s") "i" ("first edit")) ∧
    (Model.findNote (Model.saveAction (Model.setArticle Model.c2St2 ("second edit")) 20).1 1).map
        Model.Note.content
      = some (Model.Content.cipher ("pw", "s") "i" ("second edit")) ∧
    (Model.findNote Model.lockedSt 1).map (fun n => (n.content, n.iv))
      = some (Model.Content.cipher ("pw", "s") "i" "Secret Stuff", "i") := by
  decide

/-- C3 counterexample: unlocking an encrypted note with the correct
password persists a plaintext-derived `searchableContent` while the note's
`encrypted` flag stays `true`, so the claimed invariant fails at the
unlock operation (the autosave of an unlocked encrypted note violates it
the same way). -/
theorem unlock_stores_plaintext_searchable_cex :
    (Model.findNote (Model.confirmUnlock Model.lockedSt 1 "pw" "fs" "fi").st 1).map
      (fun n => (n.encrypted, n.searchableContent)) = some (true, "secret stuff") ∧
    ¬ ("secret stuff" = "") := by
  decide

/-- C3 amended: the emptiness of `searchableContent` for encrypted notes
is an invariant of `confirmLock` (which clears it) and of the search-index
rebuild (which skips encrypted notes), but a successful unlock — and an
autosave with a cached session key — store plaintext-derived
`searchableContent` while `encrypted` remains `true`. -/
theorem searchable_empty_preserved_by_lock_and_rebuild (st : Model.MgrState)
    (id : Nat) (pw fs fi : String) (now : Nat)
    (hinv : ∀ n ∈ st.notebooks, n.encrypted = true → n.searchableContent = "") :
    (∀ n ∈ (Model.confirmLock st id pw fs fi now).1.notebooks,
        n.encrypted = true → n.searchableContent = "") ∧
    (∀ n ∈ (Model.rebuildSearchIndex st).notebooks,
        n.encrypted = true → n.searchableContent = "") := by
  constructor
  · unfold Model.confirmLock
    cases hpw : (pw == "") with
    | true => simpa using hinv
    | false =>
      simp only [hpw, Bool.false_eq_true, if_false]
      cases hf : Model.findNote st id with
      | none => simpa using hinv
      | some note =>
        simp only []
        cases hce :
            (if note.encrypted = true then Model.decompressC note.content
             else some st.articleText) with
        | none => simpa using hinv
        | some text =>
          simp only []
          intro n hn henc
          have hn' : n ∈ Model.replaceFirst st.notebooks id
              (fun _ => { note with
                content := Model.encryptWithKeyC text (Model.deriveKeyC pw fs) fi,
                salt := fs, iv := fi, encrypted := true, lastModified := now,
                searchableContent := "" }) := by
            cases hA : (st.activeId == some id) with
            | true => simpa [hA] using hn
            | false => simpa [hA] using hn
          rcases Model.mem_replaceFirst_const _ _ _ _ hn' with h | h
          · exact hinv n h henc
          · subst h; rfl
  · intro n hn henc
    unfold Model.rebuildSearchIndex at hn
    obtain ⟨m, hm, rfl⟩ := List.mem_map.1 hn
    cases hme : m.encrypted with
    | true =>
      rw [Model.rebuildNote_of_encrypted m hme]
      exact hinv m hm hme
    | false =>
      rw [Model.rebuildNote_encrypted, hme] at henc
      exact absurd henc (by simp)

/-- Witness for the amended C3 at a concrete mixed state. -/
theorem searchable_empty_preserved_witness :
    (∀ n ∈ (Model.confirmLock Model.c3WSt 2 ("npw") ("ns") ("ni") 9).1.notebooks,
        n.encrypted = true → n.searchableContent = "") ∧
    (∀ n ∈ (Model.rebuildSearchIndex Model.c3WSt).notebooks,
        n.encrypted = true → n.searchableContent = "") :=
  searchable_empty_preserved_by_lock_and_rebuild Model.c3WSt 2 ("npw") ("ns") ("ni") 9
    (by decide)

/-- C4 counterexample: for a *non-active* note marked encrypted whose
content is a compressed-plaintext token decompressing to non-empty text,
`confirmUnlock` reports the rescue as successful but leaves the entire
state unchanged: the note is not re-encrypted under the supplied
password, no key is cached, and the corrupted token stays in place. -/
theorem unlock_recovery_nonactive_cex :
    (Model.confirmUnlock Model.c4St 2 ("newpw") ("fs") ("fi")).result
      = Model.UnlockResult.recovered ∧
    (Model.confirmUnlock Model.c4St 2 ("newpw") ("fs") ("fi")).st = Model.c4St ∧
    (Model.findNote Model.c4St 2).map (fun n => (n.encrypted, n.content))
      = some (true, Model.Content.comp "rescued text") := by
  decide

/-- C4 amended: the recovery holds for the *currently active* note.  For
an active note marked `encrypted = true` whose content is a plain
compressed-text token decompressing to non-empty text, `confirmUnlock`
with any non-empty password succeeds via the rescue path, restores the
correct plaintext to the editing surface, and leaves the note
re-encrypted under that password (fresh salt and iv, key cached,
`encrypted` still `true`). -/
theorem unlock_recovery_repairs_active (st : Model.MgrState) (id : Nat)
    (pw fs fi : String) (note : Model.Note) (d : String)
    (hpw : ¬ (pw = ""))
    (hact : st.activeId = some id)
    (hfind : Model.findNote st id = some note)
    (henc : note.encrypted = true)
    (hcont : note.content = Model.Content.comp d)
    (hd : ¬ (d = "")) :
    (Model.confirmUnlock st id pw fs fi).result = Model.UnlockResult.recovered ∧
    Model.findNote (Model.confirmUnlock st id pw fs fi).st id
      = some { note with
          content := Model.Content.cipher (pw, fs) fi d,
          salt := fs, iv := fi, searchableContent := "" } ∧
    (Model.confirmUnlock st id pw fs fi).st.articleText = d ∧
    (Model.confirmUnlock st id pw fs fi).st.articleEditable = true ∧
    Model.getKey (Model.confirmUnlock st id pw fs fi).st.sessionKeys id = some (pw, fs) ∧
    (Model.confirmUnlock st id pw fs fi).events = [((pw, fs), fi)] ∧
    ({ note with
        content := Model.Content.cipher (pw, fs) fi d,
        salt := fs, iv := fi, searchableContent := "" } : Model.Note).encrypted = true := by
  have hpwb : (pw == "") = false := beq_eq_false_iff_ne.mpr hpw
  have hnid : note.id = id := Model.findNote_id st id note hfind
  have hdec : Model.decryptWithKeyC note.content (Model.deriveKeyC pw note.salt) note.iv
      = none := by
    rw [hcont]; rfl
  have hdecomp : Model.decompressC note.content = some d := by rw [hcont]; rfl
  have hdb : (d == "") = false := beq_eq_false_iff_ne.mpr hd
  have hlen : d.length > 0 := string_length_pos_of_ne_empty d hd
  have hcond : (!(d == "") && decide (d.length > 0)) = true := by
    rw [hdb]
    simp [hlen]
  have hAct : (st.activeId == some note.id) = true := by
    rw [hnid, hact]
    simp
  unfold Model.confirmUnlock
  simp only [hpwb, Bool.false_eq_true, if_false, hfind, hdec, hdecomp, hcond, hAct,
    if_true]
  refine ⟨trivial, ?_, trivial, trivial, ?_, rfl, henc⟩
  · exact Model.find?_replaceFirst st.notebooks id _ note hfind rfl
  · rw [← hnid]
    exact Model.getKey_setKey st.sessionKeys note.id (pw, fs)

/-- Witness for the amended C4 at a concrete corrupted active note. -/
theorem unlock_recovery_repairs_active_witness :
    (Model.confirmUnlock Model.c4WSt 1 ("newpw") ("fs") ("fi")).result
      = Model.UnlockResult.recovered ∧
    Model.findNote (Model.confirmUnlock Model.c4WSt 1 ("newpw") ("fs") ("fi")).st 1
      = some { { Model.baseNote 1 with
          encrypted := true,
          content := .comp "rescued text",
          salt := "s",
          iv := "i" } with
          content := Model.Content.cipher ("newpw", "fs") "fi" "rescued text",
          salt := "fs", iv := "fi", searchableContent := "" } ∧
    (Model.confirmUnlock Model.c4WSt 1 ("newpw") ("fs") ("fi")).st.articleText
      = "rescued text" ∧
    (Model.confirmUnlock Model.c4WSt 1 ("newpw") ("fs") ("fi")).st.articleEditable = true ∧
    Model.getKey (Model.confirmUnlock Model.c4WSt 1 ("newpw") ("fs") ("fi")).st.sessionKeys 1
      = some ("newpw", "fs") ∧
    (Model.confirmUnlock Model.c4WSt 1 ("newpw") ("fs") ("fi")).events
      = [(("newpw", "fs"), "fi")] ∧
    ({ { Model.baseNote 1 with
        encrypted := true,
        content := .comp "rescued text",
        salt := "s",
        iv := "i" } with
        content := Model.Content.cipher ("newpw", "fs") "fi" "rescued text",
        salt := "fs", iv := "fi", searchableContent := "" } : Model.Note).encrypted
      = true :=
  unlock_recovery_repairs_active Model.c4WSt 1 ("newpw") ("fs") ("fi")
    { Model.baseNote 1 with
        encrypted := true,
        content := .comp "rescued text",
        salt := "s",
        iv := "i" } ("rescued text")
    (by decide) (by decide) (by decide) (by decide) (by decide) (by decide)

/-- C5: if both the authenticated decryption and the recovery
decompression fail, `confirmUnlock` with a non-empty password reports an
incorrect password and returns the state entirely unchanged — content,
salt, iv, encrypted flag, searchableContent and the session-key cache all
as before the call — performing no encryption. -/
theorem unlock_both_failures_unchanged (st : Model.MgrState) (id : Nat)
    (pw fs fi : String) (note : Model.Note)
    (hpw : ¬ (pw = ""))
    (hfind : Model.findNote st id = some note)
    (henc : note.encrypted = true)
    (hdec : Model.decryptWithKeyC note.content (Model.deriveKeyC pw note.salt) note.iv
      = none)
    (hdecomp : Model.decompressC note.content = none ∨
      Model.decompressC note.content = some "") :
    Model.confirmUnlock st id pw fs fi = ⟨st, [], Model.UnlockResult.wrongPassword⟩ := by
  have hpwb : (pw == "") = false := beq_eq_false_iff_ne.mpr hpw
  unfold Model.confirmUnlock
  simp only [hpwb, Bool.false_eq_true, if_false, hfind, hdec]
  rcases hdecomp with h | h
  · simp [h]
  · simp [h]

/-- Witness for C5: unlocking a genuinely encrypted note with a wrong
password changes nothing and reports the incorrect password. -/
theorem unlock_both_failures_unchanged_witness :
    Model.confirmUnlock Model.lockedSt 1 ("wrong") ("fs") ("fi")
      = ⟨Model.lockedSt, [], Model.UnlockResult.wrongPassword⟩ :=
  unlock_both_failures_unchanged Model.lockedSt 1 ("wrong") ("fs") ("fi") Model.c1Note
    (by decide) (by decide) (by decide) (by decide) (Or.inl (by decide))

/-- C6: for every unicode string `s` (including the empty string),
`decompress (compress s) = s`, and every character of the token returned
by `compress` lies in the URL-fragment-safe restricted alphabet.  The
platform deflate codec is a parameter, assumed lossless on byte lists
with byte-sized output (it is a browser built-in, not repository code). -/
theorem compress_decompress_roundtrip
    (deflate inflate : List Nat → List Nat)
    (hinf : ∀ bs, (∀ b ∈ bs, b < 256) → inflate (deflate bs) = bs)
    (hbnd : ∀ bs, (∀ b ∈ bs, b < 256) → ∀ b ∈ deflate bs, b < 256)
    (s : String) :
    decompress inflate (compress deflate s) = s ∧
    ∀ c ∈ (compress deflate s).data, isUrlSafe c = true := by
  constructor
  · unfold compress decompress utf8Encode
    rw [data_mk]
    rw [b64url_roundtrip _ (hbnd _ (utf8EncodeList_lt_256 _))]
    rw [hinf _ (utf8EncodeList_lt_256 _)]
    rw [utf8Decode_encodeList]
  · intro c hc
    rw [compress, data_mk] at hc
    obtain ⟨ch, hch, rfl⟩ := List.mem_map.1 hc
    exact isUrlSafe_swapEnc ch (toBase64_chars _ ch hch)

/-- Witness for C6 with the identity codec at a concrete string. -/
theorem compress_decompress_roundtrip_witness :
    decompress (fun bs => bs) (compress (fun bs => bs) ("Hello, notebook!")) =
      "Hello, notebook!" ∧
    ∀ c ∈ (compress (fun bs => bs) ("Hello, notebook!")).data, isUrlSafe c = true :=
  compress_decompress_roundtrip (fun bs => bs) (fun bs => bs)
    (fun _ _ => rfl) (fun _ h => h) ("Hello, notebook!")

/-- C7: for every string `s` and password `p`,
`decrypt(encrypt(s, p).encryptedData, p, salt, iv) = s` where `salt` and
`iv` are the encoded salt and iv returned by that `encrypt` call.  The
AES-GCM primitive is a parameter, assumed to invert its own encryption
and to produce byte-sized output; the PBKDF2 parameter is deterministic
by construction, so deriving from the returned salt yields the same
key. -/
theorem encrypt_decrypt_roundtrip {K : Type} (M : AesModel K)
    (haes : ∀ k iv m, M.aesDec k iv (M.aesEnc k iv m) = some m)
    (hbnd : ∀ k iv m, (∀ b ∈ m, b < 256) → ∀ b ∈ M.aesEnc k iv m, b < 256)
    (s p : String) (salt iv : List Nat)
    (hsalt : ∀ b ∈ salt, b < 256) (hiv : ∀ b ∈ iv, b < 256) :
    CryptoUtils.decrypt M (CryptoUtils.encrypt M s p salt iv).encryptedData p
      (CryptoUtils.encrypt M s p salt iv).salt (CryptoUtils.encrypt M s p salt iv).iv
      = some s := by
  unfold CryptoUtils.decrypt CryptoUtils.decryptWithKey CryptoUtils.deriveKey
    CryptoUtils.encrypt CryptoUtils.encryptWithKey utf8Encode
  simp only []
  rw [bytesOfB64url_b64urlOfBytes salt hsalt, bytesOfB64url_b64urlOfBytes iv hiv,
    bytesOfB64url_b64urlOfBytes _ (hbnd _ _ _ (utf8EncodeList_lt_256 _))]
  rw [haes]
  rw [Option.map_some']
  rw [utf8Decode_encodeList]

/-- C8 counterexample: the import dedup compares stored contents against
the raw fragment token, not against the imported note's content.  Here an
existing note's stored content is byte-identical to the imported content,
yet a new note is created (the collection grows), contradicting the
claim. -/
theorem urlimport_dedup_misses_content_match_cex :
    (Model.handleUrlParam Model.c8St (Model.Content.raw ("FRAGTOKEN")) Model.c8Imp 2 100).1.notebooks.length
      = Model.c8St.notebooks.length + 1 ∧
    (Model.c8St.notebooks.find? (fun n => n.content == Model.c8Imp.content)).isSome = true ∧
    ¬ (Model.Content.raw ("FRAGTOKEN") = Model.c8Imp.content) := by
  decide

/-- C8 amended: on import, if some existing note's stored content is
byte-identical to the *compressed fragment token itself*, no new note is
created and that existing note becomes active; otherwise a new note is
created carrying over all recovered metadata (dir, theme, createdAt,
lastModified, encrypted, salt, iv) and becomes active.  In both cases the
unlock flow is presented exactly when the recovered `encrypted` flag is
true. -/
theorem urlimport_dedups_on_fragment_token (st : Model.MgrState) (hash : Model.Content)
    (imp : Model.ImportData) (freshId now : Nat) :
    (∀ ex, st.notebooks.find? (fun n => n.content == hash) = some ex →
      Model.handleUrlParam st hash imp freshId now
        = ({ st with activeId := some ex.id }, imp.enc)) ∧
    (st.notebooks.find? (fun n => n.content == hash) = none →
      Model.handleUrlParam st hash imp freshId now
        = ({ st with
              notebooks := st.notebooks ++
                [{ Model.mkNotebook freshId ("Shared Note") imp.content st.mode
                      st.paperTheme now with
                    dir := imp.dir, paperTheme := imp.theme, createdAt := imp.created,
                    lastModified := imp.modified, encrypted := imp.enc,
                    salt := imp.salt, iv := imp.iv }],
              activeId := some freshId }, imp.enc)) := by
  constructor
  · intro ex hex
    unfold Model.handleUrlParam
    simp only [hex]
  · intro hnone
    unfold Model.handleUrlParam
    simp only [hnone]
    rfl

/-- Witness for the amended C8: importing a fragment token that matches no
stored content appends a new note with the recovered metadata and makes
it active. -/
theorem urlimport_dedups_on_fragment_token_witness :
    Model.handleUrlParam Model.c8St (Model.Content.raw ("FRAGTOKEN")) Model.c8Imp 2 100
      = ({ Model.c8St with
            notebooks := Model.c8St.notebooks ++
              [{ Model.mkNotebook 2 ("Shared Note") Model.c8Imp.content Model.c8St.mode
                    Model.c8St.paperTheme 100 with
                  dir := Model.c8Imp.dir, paperTheme := Model.c8Imp.theme,
                  createdAt := Model.c8Imp.created, lastModified := Model.c8Imp.modified,
                  encrypted := Model.c8Imp.enc, salt := Model.c8Imp.salt,
                  iv := Model.c8Imp.iv }],
            activeId := some 2 }, Model.c8Imp.enc) :=
  (urlimport_dedups_on_fragment_token Model.c8St (Model.Content.raw ("FRAGTOKEN"))
    Model.c8Imp 2 100).2 (by decide)

/-- Reduction of `ensureActiveNote` when no note of the current mode
remains: a fresh untitled note is appended and becomes active. -/
theorem Model.ensureActiveNote_empty (st : Model.MgrState) (freshId now : Nat)
    (h : st.notebooks.filter (fun n => n.mode == st.mode) = []) :
    Model.ensureActiveNote st freshId now
      = { st with
          notebooks := st.notebooks ++
            [Model.mkNotebook freshId ("Untitled Note") Model.Content.empty st.mode
              st.paperTheme now],
          activeId := some freshId } := by
  unfold Model.ensureActiveNote
  rw [h]
  rfl

/-- Reduction of `ensureActiveNote` when notes of the current mode remain
and no note is active: the last collection-order note of the mode becomes
active. -/
theorem Model.ensureActiveNote_nonempty (st : Model.MgrState) (freshId now : Nat)
    (hA : st.activeId = none)
    (h : st.notebooks.filter (fun n => n.mode == st.mode) ≠ []) :
    Model.ensureActiveNote st freshId now
      = { st with
          activeId := (st.notebooks.filter (fun n => n.mode == st.mode)).getLast?.map
            Model.Note.id } := by
  unfold Model.ensureActiveNote
  have hfe : (st.notebooks.filter (fun n => n.mode == st.mode)).isEmpty = false := by
    cases hfe : (st.notebooks.filter (fun n => n.mode == st.mode)).isEmpty with
    | true => exact absurd (List.isEmpty_iff.1 hfe) h
    | false => rfl
  simp only [hfe, Bool.false_eq_true, if_false, hA]
  rw [if_pos trivial]

/-- C9 counterexample: after deleting the active note 1, the code
activates note 3 — the last note of the mode in collection order — even
though the remaining note 2 of the same mode is more recent by both
`lastModified` and `createdAt`, so the new active note is not the most
recent note of the current mode. -/
theorem delete_active_not_most_recent_cex :
    (Model.confirmDelete Model.c9St 1 99 1000).activeId = some 3 ∧
    ((Model.confirmDelete Model.c9St 1 99 1000).notebooks.find? (fun n => n.id == 2)).map
      (fun n => (n.mode, n.lastModified, n.createdAt)) = some ("plain", 200, 50) ∧
    ((Model.confirmDelete Model.c9St 1 99 1000).notebooks.find? (fun n => n.id == 3)).map
      (fun n => (n.mode, n.lastModified, n.createdAt)) = some ("plain", 100, 10) := by
  decide

/-- C9 amended: deleting the currently active note always results in a
valid new active note of the current mode — the *last note in collection
order* (the most recently added) of the current mode if one remains, else
a freshly created untitled note — and the active pointer never ends up
null or dangling. -/
theorem delete_active_reestablishes (st : Model.MgrState) (id freshId now : Nat)
    (hact : st.activeId = some id) :
    (∃ n, n ∈ (Model.confirmDelete st id freshId now).notebooks ∧
      (Model.confirmDelete st id freshId now).activeId = some n.id ∧
      n.mode = st.mode) ∧
    ((st.notebooks.filter (fun n => !(n.id == id))).filter (fun n => n.mode == st.mode)
        = [] →
      (Model.confirmDelete st id freshId now).notebooks
        = st.notebooks.filter (fun n => !(n.id == id)) ++
          [Model.mkNotebook freshId ("Untitled Note") Model.Content.empty st.mode
            st.paperTheme now] ∧
      (Model.confirmDelete st id freshId now).activeId = some freshId) ∧
    ((st.notebooks.filter (fun n => !(n.id == id))).filter (fun n => n.mode == st.mode)
        ≠ [] →
      (Model.confirmDelete st id freshId now).notebooks
        = st.notebooks.filter (fun n => !(n.id == id)) ∧
      (Model.confirmDelete st id freshId now).activeId
        = ((st.notebooks.filter (fun n => !(n.id == id))).filter
            (fun n => n.mode == st.mode)).getLast?.map Model.Note.id) := by
  have hcond : (st.activeId == some id) = true := by rw [hact]; simp
  have hdel : Model.confirmDelete st id freshId now
      = Model.loadActiveNote (Model.ensureActiveNote
          { st with notebooks := st.notebooks.filter (fun n => !(n.id == id)), activeId := none }
          freshId now) := by
    unfold Model.confirmDelete
    rw [if_pos hcond]
  by_cases hmr :
      (st.notebooks.filter (fun n => !(n.id == id))).filter (fun n => n.mode == st.mode)
        = []
  · have hens := Model.ensureActiveNote_empty
      { st with notebooks := st.notebooks.filter (fun n => !(n.id == id)), activeId := none }
      freshId now hmr
    rw [hens] at hdel
    refine ⟨?_, fun _ => ?_, fun hne => absurd hmr hne⟩
    · refine ⟨Model.mkNotebook freshId ("Untitled Note") Model.Content.empty st.mode
        st.paperTheme now, ?_, ?_, rfl⟩
      · rw [hdel, Model.loadActiveNote_notebooks]
        exact List.mem_append_right _ (List.mem_singleton_self _)
      · rw [hdel, Model.loadActiveNote_activeId]
        rfl
    · rw [hdel, Model.loadActiveNote_notebooks, Model.loadActiveNote_activeId]
      exact ⟨rfl, rfl⟩
  · have hens := Model.ensureActiveNote_nonempty
      { st with notebooks := st.notebooks.filter (fun n => !(n.id == id)), activeId := none }
      freshId now rfl hmr
    rw [hens] at hdel
    have hlast := List.getLast?_eq_getLast_of_ne_nil hmr
    refine ⟨?_, fun he => absurd he hmr, fun _ => ?_⟩
    · refine ⟨((st.notebooks.filter (fun n => !(n.id == id))).filter
        (fun n => n.mode == st.mode)).getLast hmr, ?_, ?_, ?_⟩
      · rw [hdel, Model.loadActiveNote_notebooks]
        exact List.mem_of_mem_filter (List.getLast_mem hmr)
      · rw [hdel, Model.loadActiveNote_activeId]
        simp only [hlast, Option.map_some']
      · have := List.mem_filter.1 (List.getLast_mem hmr)
        exact eq_of_beq this.2
    · rw [hdel, Model.loadActiveNote_notebooks, Model.loadActiveNote_activeId]
      exact ⟨rfl, rfl⟩

/-- Witness for the amended C9: deleting the active note of a two-note
collection activates the remaining note of the mode. -/
theorem delete_active_reestablishes_witness :
    (∃ n, n ∈ (Model.confirmDelete Model.c9WSt 1 50 7).notebooks ∧
      (Model.confirmDelete Model.c9WSt 1 50 7).activeId = some n.id ∧
      n.mode = Model.c9WSt.mode) ∧
    ((Model.c9WSt.notebooks.filter (fun n => !(n.id == 1))).filter
        (fun n => n.mode == Model.c9WSt.mode) = [] →
      (Model.confirmDelete Model.c9WSt 1 50 7).notebooks
        = Model.c9WSt.notebooks.filter (fun n => !(n.id == 1)) ++
          [Model.mkNotebook 50 ("Untitled Note") Model.Content.empty Model.c9WSt.mode
            Model.c9WSt.paperTheme 7] ∧
      (Model.confirmDelete Model.c9WSt 1 50 7).activeId = some 50) ∧
    ((Model.c9WSt.notebooks.filter (fun n => !(n.id == 1))).filter
        (fun n => n.mode == Model.c9WSt.mode) ≠ [] →
      (Model.confirmDelete Model.c9WSt 1 50 7).notebooks
        = Model.c9WSt.notebooks.filter (fun n => !(n.id == 1)) ∧
      (Model.confirmDelete Model.c9WSt 1 50 7).activeId
        = ((Model.c9WSt.notebooks.filter (fun n => !(n.id == 1))).filter
            (fun n => n.mode == Model.c9WSt.mode)).getLast?.map Model.Note.id) :=
  delete_active_reestablishes Model.c9WSt 1 50 7 (by decide)

/-- C10: auto-titling during autosave fires exactly when the note's title
is `Untitled Note` or `Shared Note` and the trimmed first line of the
content, truncated to its first 30 characters, is longer than 2
characters; then the title becomes that truncated first line, otherwise
it is unchanged. -/
theorem autosave_autotitle (st : Model.MgrState) (id : Nat) (note : Model.Note)
    (now : Nat)
    (hact : st.activeId = some id)
    (hfind : Model.findNote st id = some note)
    (hed : st.articleEditable = true)
    (hkey : note.encrypted = true → ¬ Model.getKey st.sessionKeys note.id = none) :
    ∃ note', Model.findNote (Model.saveAction st now).1 id = some note' ∧
      note'.title =
        if (note.title = "Untitled Note" ∨ note.title = "Shared Note")
            ∧ (Model.firstLineOf st.articleText).length > 2
        then Model.firstLineOf st.articleText
        else note.title := by
  have htitle :
      (if note.title == "Untitled Note" || note.title == "Shared Note" then
        if !(Model.firstLineOf st.articleText == "")
            && decide ((Model.firstLineOf st.articleText).length > 2) then
          Model.firstLineOf st.articleText
        else note.title
      else note.title)
      = (if (note.title = "Untitled Note" ∨ note.title = "Shared Note")
            ∧ (Model.firstLineOf st.articleText).length > 2
        then Model.firstLineOf st.articleText
        else note.title) := by
    by_cases h1 : note.title = "Untitled Note" ∨ note.title = "Shared Note"
    · have h1b : (note.title == "Untitled Note" || note.title == "Shared Note") = true := by
        rcases h1 with h | h <;> simp [h]
      by_cases h2 : (Model.firstLineOf st.articleText).length > 2
      · have hne : (Model.firstLineOf st.articleText == "") = false :=
          beq_eq_false_iff_ne.mpr (string_ne_empty_of_length_gt _ h2)
        simp [h1b, hne, h1, h2]
      · have h2b : (decide ((Model.firstLineOf st.articleText).length > 2)) = false := by
          simp [h2]
        simp only [h1b, if_true, h2b, Bool.and_false, Bool.false_eq_true, if_false]
        rw [if_neg]
        intro hc
        exact h2 hc.2
    · have h1b : (note.title == "Untitled Note" || note.title == "Shared Note") = false := by
        rcases not_or.1 h1 with ⟨ha, hb⟩
        simp [ha, hb]
      simp only [h1b, Bool.false_eq_true, if_false]
      rw [if_neg]
      intro hc
      exact h1 hc.1
  have hsave : ∃ (nc : Model.Content) (events : List Model.EncEvent),
      (Model.saveAction st now).1.notebooks
        = Model.replaceFirst st.notebooks id (fun _ =>
            { note with
                content := nc
                lastModified := now
                tags := Model.jsDedup (note.tags ++ Model.contentTags st.articleText)
                searchableContent := Model.searchableOf st.articleText
                title :=
                  if note.title == "Untitled Note" || note.title == "Shared Note" then
                    if !(Model.firstLineOf st.articleText == "")
                        && decide ((Model.firstLineOf st.articleText).length > 2) then
                      Model.firstLineOf st.articleText
                    else note.title
                  else note.title }) := by
    unfold Model.saveAction
    simp only [hact, hfind, hed, Bool.not_true, Bool.false_eq_true, if_false]
    cases henc : note.encrypted with
    | false =>
      simp only [Bool.false_eq_true, if_false]
      exact ⟨Model.Content.comp st.articleText, [], rfl⟩
    | true =>
      simp only [if_true]
      cases hk : Model.getKey st.sessionKeys note.id with
      | none => exact absurd hk (hkey henc)
      | some key =>
        simp only []
        exact ⟨Model.encryptWithKeyC st.articleText key note.iv, [(key, note.iv)], rfl⟩
  obtain ⟨nc, events, hnb⟩ := hsave
  refine ⟨{ note with
      content := nc
      lastModified := now
      tags := Model.jsDedup (note.tags ++ Model.contentTags st.articleText)
      searchableContent := Model.searchableOf st.articleText
      title :=
        if note.title == "Untitled Note" || note.title == "Shared Note" then
          if !(Model.firstLineOf st.articleText == "")
              && decide ((Model.firstLineOf st.articleText).length > 2) then
            Model.firstLineOf st.articleText
          else note.title
        else note.title }, ?_, htitle⟩
  unfold Model.findNote
  rw [hnb]
  exact Model.find?_replaceFirst st.notebooks id _ note hfind rfl

/-- Witness for C10: an untitled note is renamed to the (short) first
content line by autosave. -/
theorem autosave_autotitle_witness :
    ∃ note', Model.findNote (Model.saveAction Model.c10St 7).1 1 = some note' ∧
      note'.title =
        if (("Untitled Note" : String) = "Untitled Note" ∨
            ("Untitled Note" : String) = "Shared Note")
            ∧ (Model.firstLineOf Model.c10St.articleText).length > 2
        then Model.firstLineOf Model.c10St.articleText
        else "Untitled Note" := by
  have h := autosave_autotitle Model.c10St 1
    { Model.baseNote 1 with title := "Untitled Note" } 7 (by decide) (by decide)
    (by decide) (fun hfalse => absurd hfalse (by decide))
  simpa using h

/-- Witness for C7 with a trivial cipher model at concrete inputs. -/
theorem encrypt_decrypt_roundtrip_witness :
    CryptoUtils.decrypt (⟨fun _ _ => (), fun _ _ m => m, fun _ _ c => some c⟩ : AesModel Unit)
        (CryptoUtils.encrypt
          (⟨fun _ _ => (), fun _ _ m => m, fun _ _ c => some c⟩ : AesModel Unit)
          ("attack at dawn") ("hunter2") [7, 200, 13] [0, 255, 3]).encryptedData
        ("hunter2")
        (CryptoUtils.encrypt
          (⟨fun _ _ => (), fun _ _ m => m, fun _ _ c => some c⟩ : AesModel Unit)
          ("attack at dawn") ("hunter2") [7, 200, 13] [0, 255, 3]).salt
        (CryptoUtils.encrypt
          (⟨fun _ _ => (), fun _ _ m => m, fun _ _ c => some c⟩ : AesModel Unit)
          ("attack at dawn") ("hunter2") [7, 200, 13] [0, 255, 3]).iv
      = some "attack at dawn" :=
  encrypt_decrypt_roundtrip (⟨fun _ _ => (), fun _ _ m => m, fun _ _ c => some c⟩ : AesModel Unit)
    (fun _ _ _ => rfl) (fun _ _ _ h => h) ("attack at dawn") ("hunter2")
    [7, 200, 13] [0, 255, 3] (by decide) (by decide)

end NB



